import Mathlib

/-!
Shallow embedding of the arbitrage engine in `src/main.py`
(functions `calculate_amount_out`, `calculate_arbitrage`,
`simulate_multi_round_arbitrage`).

Python floats are modelled as real numbers.  Python raises
`ZeroDivisionError` on a float division by zero, and `x ** 0.5` on a
negative float yields a complex number, which makes the subsequent
formatting / comparison in the same guarded block raise; both failure
modes are modelled as values of `PyError` threaded through `Except`.
The broad `try ... except Exception` block of `calculate_arbitrage`
(which swallows every error and falls back to the zero result) is
modelled by matching on the guarded computation and replacing any
error by the zero result.
-/

/-- Failure modes of the embedded Python code. -/
inductive PyError where
  | zeroDivision : PyError
  | complexPower : PyError
deriving DecidableEq, Repr

open Real

/-- Python float division: raises `ZeroDivisionError` when the
denominator is zero, otherwise returns the quotient. -/
noncomputable def pyDiv (a b : ℝ) : Except PyError ℝ :=
  if b = 0 then Except.error PyError.zeroDivision else Except.ok (a / b)

/-- Python `x ** 0.5`: the principal square root for a non-negative
base; a negative base produces a complex number, which the surrounding
code cannot consume (its formatting/comparison raises), modelled as an
error. -/
noncomputable def pySqrt (x : ℝ) : Except PyError ℝ :=
  if x < 0 then Except.error PyError.complexPower else Except.ok (Real.sqrt x)

/-- Result record of `calculate_arbitrage` (`ArbitrageResult` in
`main.py`). -/
structure ArbitrageResult where
  usdc_in : ℝ
  zerc_bridged : ℝ
  usdc_out : ℝ
  profit : ℝ
  direction : String

/-- The canonical zero result that `calculate_arbitrage` initialises
and returns on every no-opportunity or error path. -/
def zeroResult : ArbitrageResult :=
  { usdc_in := 0, zerc_bridged := 0, usdc_out := 0, profit := 0, direction := "" }

/-- `calculate_amount_out` from `main.py`: the constant-product output
formula, exactly as written in the source (no fee term). -/
noncomputable def calculate_amount_out
    (amount_in reserve_in reserve_out : ℝ) : ℝ :=
  let numerator := amount_in * reserve_out
  let denominator := reserve_in + amount_in
  numerator / denominator

/-- A Python call of `calculate_amount_out`: raises `ZeroDivisionError`
exactly when the denominator `reserve_in + amount_in` is zero. -/
noncomputable def pyCallAmountOut
    (amount_in reserve_in reserve_out : ℝ) : Except PyError ℝ :=
  if reserve_in + amount_in = 0 then Except.error PyError.zeroDivision
  else Except.ok (calculate_amount_out amount_in reserve_in reserve_out)

/-- The optimal-input block of `calculate_arbitrage` (`main.py` lines
97-106): price ratios, the gamma coefficient `(target/source) ** 0.5`,
and `source_usdc * (gamma - 1) / (1 + gamma)`. -/
noncomputable def optimal_input_calc
    (source_usdc source_zerc target_usdc target_zerc : ℝ) :
    Except PyError ℝ := do
  let ratio_source ← pyDiv source_usdc source_zerc
  let ratio_target ← pyDiv target_usdc target_zerc
  let q ← pyDiv ratio_target ratio_source
  let gamma ← pySqrt q
  pyDiv (source_usdc * (gamma - 1)) (1 + gamma)

/-- Body of the `try` block of `calculate_arbitrage` after the
direction has been fixed: compute the optimal input, the two swap
legs, the profit check, and the new pool states / prices that the
source computes before returning.  The source's intermediate
variables (`profit`, `new_source_usdc`, ...) are inlined. -/
noncomputable def arbCore (direction : String)
    (source_usdc source_zerc target_usdc target_zerc : ℝ) :
    Except PyError ArbitrageResult := do
  let optimal_usdc_in ← optimal_input_calc
      source_usdc source_zerc target_usdc target_zerc
  let zerc_out ← pyCallAmountOut optimal_usdc_in source_usdc source_zerc
  let usdc_out ← pyCallAmountOut zerc_out target_zerc target_usdc
  if usdc_out - optimal_usdc_in ≤ 0 then
    pure zeroResult
  else do
    let new_source_price ← pyDiv (source_usdc + optimal_usdc_in)
        (source_zerc - zerc_out)
    let new_target_price ← pyDiv (target_usdc - usdc_out)
        (target_zerc + zerc_out)
    let _ ← pyDiv (|new_source_price - new_target_price|)
        (min new_source_price new_target_price)
    pure { usdc_in := optimal_usdc_in, zerc_bridged := zerc_out,
           usdc_out := usdc_out, profit := usdc_out - optimal_usdc_in,
           direction := direction }

/-- `calculate_arbitrage` from `main.py`: prices, the 0.001% relative
price-difference guard, direction selection (lower price is the
source), and the guarded trade computation whose every exception is
caught and replaced by the zero result.  The intermediate variables
`price_diff` and `price_diff_pct` are inlined. -/
noncomputable def calculate_arbitrage
    (eth_usdc_balance eth_zerc_balance pol_usdc_balance pol_zerc_balance : ℝ) :
    Except PyError ArbitrageResult := do
  let eth_price ← pyDiv eth_usdc_balance eth_zerc_balance
  let pol_price ← pyDiv pol_usdc_balance pol_zerc_balance
  let q ← pyDiv (|eth_price - pol_price|) (min eth_price pol_price)
  if q * 100 < 0.001 then
    pure zeroResult
  else
    match (if eth_price < pol_price then
             arbCore "eth_to_pol" eth_usdc_balance eth_zerc_balance
               pol_usdc_balance pol_zerc_balance
           else
             arbCore "pol_to_eth" pol_usdc_balance pol_zerc_balance
               eth_usdc_balance eth_zerc_balance) with
    | Except.error _ => pure zeroResult
    | Except.ok r => pure r

/-- The four pool balances threaded through the simulation loop of
`simulate_multi_round_arbitrage`. -/
structure Snapshot where
  eth_usdc : ℝ
  eth_zerc : ℝ
  pol_usdc : ℝ
  pol_zerc : ℝ

/-- The price-difference computation at the top of each simulation
round (`main.py` lines 205-212). -/
noncomputable def priceDiffPctE (s : Snapshot) : Except PyError ℝ := do
  let eth_price ← pyDiv s.eth_usdc s.eth_zerc
  let pol_price ← pyDiv s.pol_usdc s.pol_zerc
  let q ← pyDiv (|eth_price - pol_price|) (min eth_price pol_price)
  pure (q * 100)

/-- The balance update applied after a profitable round (`main.py`
lines 233-245), keyed on the round's direction. -/
noncomputable def applyRound (s : Snapshot) (r : ArbitrageResult) : Snapshot :=
  if r.direction = "eth_to_pol" then
    { eth_usdc := s.eth_usdc + r.usdc_in,
      eth_zerc := s.eth_zerc - r.zerc_bridged,
      pol_usdc := s.pol_usdc - r.usdc_out,
      pol_zerc := s.pol_zerc + r.zerc_bridged }
  else
    { eth_usdc := s.eth_usdc - r.usdc_out,
      eth_zerc := s.eth_zerc + r.zerc_bridged,
      pol_usdc := s.pol_usdc + r.usdc_in,
      pol_zerc := s.pol_zerc - r.zerc_bridged }

/-- `simulate_multi_round_arbitrage` from `main.py`: at most
`max_rounds` rounds; each round recomputes prices from the current
snapshot, stops before appending when the price difference is below
`min_price_diff_pct` or the round's profit is not positive, and
otherwise applies the round to the snapshot.  The final snapshot is
returned alongside the round list (in the source it is the final state
of the `current_*` variables). -/
noncomputable def simulate_multi_round_arbitrage
    (s : Snapshot) (max_rounds : ℕ) (min_price_diff_pct : ℝ) :
    Except PyError (List ArbitrageResult × Snapshot) :=
  match max_rounds with
  | 0 => Except.ok ([], s)
  | n + 1 => do
    let price_diff_pct ← priceDiffPctE s
    if price_diff_pct < min_price_diff_pct then
      pure ([], s)
    else do
      let result ← calculate_arbitrage s.eth_usdc s.eth_zerc
          s.pol_usdc s.pol_zerc
      if result.profit ≤ 0 then
        pure ([], s)
      else do
        let rest ← simulate_multi_round_arbitrage (applyRound s result) n
            min_price_diff_pct
        pure (result :: rest.1, rest.2)

/-- Modelled from the spec: `swap_output` with a proportional fee taken
from the input — effective input `amount_in * (1 - fee_rate)`, output
`effective_input * reserve_out / (reserve_in + effective_input)`.  Used
only to compare the spec's fee-bearing formula with the source. -/
noncomputable def swap_output_spec
    (amount_in reserve_in reserve_out fee_rate : ℝ) : ℝ :=
  let effective_input := amount_in * (1 - fee_rate)
  effective_input * reserve_out / (reserve_in + effective_input)

/-- The value of the source's `gamma` variable as a function of the
chosen source/target reserves. -/
noncomputable def gammaOf (su sz tu tz : ℝ) : ℝ :=
  Real.sqrt ((tu / tz) / (su / sz))

/-- The value of the source's `optimal_usdc_in` variable. -/
noncomputable def optimalOf (su sz tu tz : ℝ) : ℝ :=
  su * (gammaOf su sz tu tz - 1) / (1 + gammaOf su sz tu tz)

/-- The value of the source's `zerc_out` variable. -/
noncomputable def zercOutOf (su sz tu tz : ℝ) : ℝ :=
  calculate_amount_out (optimalOf su sz tu tz) su sz

/-- The value of the source's `usdc_out` variable. -/
noncomputable def usdcOutOf (su sz tu tz : ℝ) : ℝ :=
  calculate_amount_out (zercOutOf su sz tu tz) tz tu

/-- The record `calculate_arbitrage` builds on its profitable path. -/
noncomputable def fullResult (d : String) (su sz tu tz : ℝ) : ArbitrageResult :=
  { usdc_in := optimalOf su sz tu tz,
    zerc_bridged := zercOutOf su sz tu tz,
    usdc_out := usdcOutOf su sz tu tz,
    profit := usdcOutOf su sz tu tz - optimalOf su sz tu tz,
    direction := d }

/-- The relative price-difference expression used by both the guard in
`calculate_arbitrage` and the loop head of the simulator:
`abs(p1 - p2) / min(p1, p2) * 100`. -/
noncomputable def relDiffPct (p1 p2 : ℝ) : ℝ :=
  |p1 - p2| / min p1 p2 * 100

/- ### Reduction lemmas for the embedded Python primitives -/

theorem pyDiv_ok (a : ℝ) {b : ℝ} (hb : b ≠ 0) :
    pyDiv a b = Except.ok (a / b) := by
  simp [pyDiv, hb]

theorem pyDiv_zero (a : ℝ) : pyDiv a 0 = Except.error PyError.zeroDivision := by
  simp [pyDiv]

theorem pySqrt_ok {x : ℝ} (hx : 0 ≤ x) :
    pySqrt x = Except.ok (Real.sqrt x) := by
  simp [pySqrt, not_lt.mpr hx]

theorem pyCallAmountOut_ok (a : ℝ) {ri : ℝ} (ro : ℝ) (h : ri + a ≠ 0) :
    pyCallAmountOut a ri ro = Except.ok (calculate_amount_out a ri ro) := by
  simp [pyCallAmountOut, h]

theorem except_bind_ok {α β : Type} (a : α) (f : α → Except PyError β) :
    (Except.ok a >>= f) = f a := rfl

theorem except_bind_err {α β : Type} (e : PyError) (f : α → Except PyError β) :
    ((Except.error e : Except PyError α) >>= f) = Except.error e := rfl

theorem except_pure {α : Type} (a : α) :
    (pure a : Except PyError α) = Except.ok a := rfl

/- ### C1: fee handling of the swap-output function -/

/-- C1 counterexample: the source's swap-output function does not
match the spec's fee-bearing formula (effective input
`amount_in * (1 - 0.003)`) even at the concrete input
`amount_in = reserve_in = reserve_out = 1`. -/
theorem c1_swap_fee_counterexample :
    calculate_amount_out 1 1 1 ≠ swap_output_spec 1 1 1 0.003 := by
  norm_num [calculate_amount_out, swap_output_spec]

/-- C1 (amended): the swap-output function computes the constant
product output with no fee at all, i.e. it agrees with the spec's
formula only at `fee_rate = 0`:
`output = amount_in * reserve_out / (reserve_in + amount_in)`. -/
theorem c1_swap_output_no_fee (amount_in reserve_in reserve_out : ℝ) :
    calculate_amount_out amount_in reserve_in reserve_out =
      swap_output_spec amount_in reserve_in reserve_out 0 := by
  simp [calculate_amount_out, swap_output_spec]

/- ### C2: reserve-validation and error propagation -/

/-- C2 counterexample: a negative reserve (`eth_zerc = -1`) does not
make the evaluation fail with any error; the computation silently
returns the canonical zero result. -/
theorem c2_negative_reserve_counterexample :
    calculate_arbitrage 100 (-1) 200 100 = Except.ok zeroResult := by
  rw [calculate_arbitrage]
  rw [pyDiv_ok 100 (by norm_num : ((-1:ℝ)) ≠ 0), except_bind_ok]
  rw [pyDiv_ok 200 (by norm_num : ((100:ℝ)) ≠ 0), except_bind_ok]
  norm_num
  rw [pyDiv_ok 102 (by norm_num : ((-100:ℝ)) ≠ 0), except_bind_ok]
  norm_num
  rfl

/-- C2 (amended): the code never raises any `InvalidReserveError` (no
such error exists); a zero reserve used as a price denominator raises
`ZeroDivisionError`, which does propagate to the caller both from the
single-round evaluation and from the multi-round simulation, because
the price computation happens before the guarded block; negative
reserves, by contrast, are not rejected at all (see the
counterexample). -/
theorem c2_zero_reserve_zero_division (eu pu pz minp : ℝ) (n : ℕ) :
    calculate_arbitrage eu 0 pu pz = Except.error PyError.zeroDivision ∧
    simulate_multi_round_arbitrage ⟨eu, 0, pu, pz⟩ (n + 1) minp =
      Except.error PyError.zeroDivision := by
  constructor
  · rw [calculate_arbitrage, pyDiv_zero, except_bind_err]
  · rw [simulate_multi_round_arbitrage]
    rw [show priceDiffPctE ⟨eu, 0, pu, pz⟩ = Except.error PyError.zeroDivision by
      rw [priceDiffPctE]
      rw [show Snapshot.eth_zerc ⟨eu, 0, pu, pz⟩ = 0 from rfl, pyDiv_zero, except_bind_err]]
    rw [except_bind_err]

/- ### C9: monotonicity of the swap-output function -/

/-- C9: for fixed positive reserves the swap-output function returns 0
at `amount_in = 0` and is strictly increasing in `amount_in` on
`amount_in ≥ 0`. -/
theorem c9_swap_output_monotone (reserve_in reserve_out : ℝ)
    (hri : 0 < reserve_in) (hro : 0 < reserve_out) :
    calculate_amount_out 0 reserve_in reserve_out = 0 ∧
    ∀ a1 a2 : ℝ, 0 ≤ a1 → a1 < a2 →
      calculate_amount_out a1 reserve_in reserve_out <
        calculate_amount_out a2 reserve_in reserve_out := by
  constructor
  · simp [calculate_amount_out]
  · intro a1 a2 h1 h12
    show a1 * reserve_out / (reserve_in + a1) < a2 * reserve_out / (reserve_in + a2)
    have d1 : 0 < reserve_in + a1 := by linarith
    have d2 : 0 < reserve_in + a2 := by linarith
    rw [div_lt_div_iff₀ d1 d2]
    nlinarith [mul_pos (mul_pos (sub_pos.mpr h12) hro) (mul_pos hri hro)]

/-- Witness for C9 at `reserve_in = reserve_out = 1`, comparing
`amount_in = 1` with `amount_in = 2`. -/
theorem c9_witness :
    calculate_amount_out 0 1 1 = 0 ∧
    calculate_amount_out 1 1 1 < calculate_amount_out 2 1 1 := by
  have h := c9_swap_output_monotone 1 1 (by norm_num) (by norm_num)
  exact ⟨h.1, h.2 1 2 (by norm_num) (by norm_num)⟩

/- ### C7: the closed-form optimal input -/

/-- Helper: for positive reserves the optimal-input computation
reduces to the closed form in the square root of the price-ratio
quotient. -/
theorem optimal_input_calc_eval
    (source_usdc source_zerc target_usdc target_zerc : ℝ)
    (hsu : 0 < source_usdc) (hsz : 0 < source_zerc)
    (htu : 0 < target_usdc) (htz : 0 < target_zerc) :
    optimal_input_calc source_usdc source_zerc target_usdc target_zerc =
      Except.ok (source_usdc *
        (Real.sqrt ((target_usdc / target_zerc) / (source_usdc / source_zerc)) - 1) /
        (1 + Real.sqrt ((target_usdc / target_zerc) / (source_usdc / source_zerc)))) := by
  have hq : 0 < (target_usdc / target_zerc) / (source_usdc / source_zerc) :=
    div_pos (div_pos htu htz) (div_pos hsu hsz)
  have hg : 0 ≤ Real.sqrt ((target_usdc / target_zerc) / (source_usdc / source_zerc)) :=
    Real.sqrt_nonneg _
  rw [optimal_input_calc, pyDiv_ok source_usdc hsz.ne', except_bind_ok,
      pyDiv_ok target_usdc htz.ne', except_bind_ok,
      pyDiv_ok _ (div_pos hsu hsz).ne', except_bind_ok,
      pySqrt_ok hq.le, except_bind_ok,
      pyDiv_ok _ (by linarith :
        (1 : ℝ) + Real.sqrt ((target_usdc / target_zerc) / (source_usdc / source_zerc)) ≠ 0)]

/-- C7: for positive reserves the optimal-input computation succeeds
and equals the spec's closed form
`source_stable * (gamma - 1) / (gamma + 1)` with
`gamma = sqrt(ratio_target / ratio_source)`. -/
theorem c7_optimal_input_closed_form
    (source_usdc source_zerc target_usdc target_zerc : ℝ)
    (hsu : 0 < source_usdc) (hsz : 0 < source_zerc)
    (htu : 0 < target_usdc) (htz : 0 < target_zerc) :
    optimal_input_calc source_usdc source_zerc target_usdc target_zerc =
      Except.ok (source_usdc *
        (Real.sqrt ((target_usdc / target_zerc) / (source_usdc / source_zerc)) - 1) /
        (Real.sqrt ((target_usdc / target_zerc) / (source_usdc / source_zerc)) + 1)) := by
  rw [optimal_input_calc_eval source_usdc source_zerc target_usdc target_zerc
      hsu hsz htu htz,
      add_comm 1 (Real.sqrt ((target_usdc / target_zerc) / (source_usdc / source_zerc)))]

/-- Witness for C7 at reserves `(100, 50)` and `(800, 100)`, where
`gamma = sqrt 4 = 2` and the optimal input is `100 / 3`. -/
theorem c7_witness : optimal_input_calc 100 50 800 100 = Except.ok (100 / 3) := by
  have h := c7_optimal_input_closed_form 100 50 800 100
    (by norm_num) (by norm_num) (by norm_num) (by norm_num)
  rw [h, show ((800 : ℝ) / 100) / ((100 : ℝ) / 50) = 4 by norm_num,
      show (4 : ℝ) = 2 ^ 2 by norm_num, Real.sqrt_sq (by norm_num : (0:ℝ) ≤ 2)]
  norm_num

/- ### C4: the relative price-difference guard -/

/-- C4: for positive reserves whose relative price difference is below
the fixed 0.001% threshold, the single-round evaluation returns the
canonical zero result. -/
theorem c4_below_threshold_zero_result (eu ez pu pz : ℝ)
    (heu : 0 < eu) (hez : 0 < ez) (hpu : 0 < pu) (hpz : 0 < pz)
    (hth : |eu / ez - pu / pz| / min (eu / ez) (pu / pz) * 100 < 0.001) :
    calculate_arbitrage eu ez pu pz = Except.ok zeroResult := by
  rw [calculate_arbitrage, pyDiv_ok eu hez.ne', except_bind_ok,
      pyDiv_ok pu hpz.ne', except_bind_ok,
      pyDiv_ok _ (lt_min (div_pos heu hez) (div_pos hpu hpz)).ne', except_bind_ok,
      if_pos hth]
  rfl

/-- Witness for C4 at two pools with the identical price 2. -/
theorem c4_witness : calculate_arbitrage 100 50 100 50 = Except.ok zeroResult :=
  c4_below_threshold_zero_result 100 50 100 50
    (by norm_num) (by norm_num) (by norm_num) (by norm_num) (by norm_num)

/- ### C6: the simulation loop is bounded and stops early -/

/-- Helper: the round list returned by the simulation loop is never
longer than the round cap. -/
theorem simulate_length_le (n : ℕ) :
    ∀ (s : Snapshot) (minp : ℝ) (l : List ArbitrageResult) (f : Snapshot),
      simulate_multi_round_arbitrage s n minp = Except.ok (l, f) →
      l.length ≤ n := by
  induction n with
  | zero =>
    intro s minp l f h
    simp only [simulate_multi_round_arbitrage, Except.ok.injEq, Prod.mk.injEq] at h
    obtain ⟨h1, h2⟩ := h
    subst h1
    simp
  | succ n ih =>
    intro s minp l f h
    simp only [simulate_multi_round_arbitrage] at h
    cases hp : priceDiffPctE s with
    | error e =>
      rw [hp, except_bind_err] at h
      exact absurd h (by simp)
    | ok pct =>
      rw [hp, except_bind_ok] at h
      by_cases hc : pct < minp
      · rw [if_pos hc, except_pure] at h
        simp only [Except.ok.injEq, Prod.mk.injEq] at h
        obtain ⟨h1, h2⟩ := h
        subst h1
        simp
      · rw [if_neg hc] at h
        cases hr : calculate_arbitrage s.eth_usdc s.eth_zerc s.pol_usdc s.pol_zerc with
        | error e =>
          rw [hr, except_bind_err] at h
          exact absurd h (by simp)
        | ok r =>
          rw [hr, except_bind_ok] at h
          by_cases hpr : r.profit ≤ 0
          · rw [if_pos hpr, except_pure] at h
            simp only [Except.ok.injEq, Prod.mk.injEq] at h
            obtain ⟨h1, h2⟩ := h
            subst h1
            simp
          · rw [if_neg hpr] at h
            cases hrec : simulate_multi_round_arbitrage (applyRound s r) n minp with
            | error e =>
              rw [hrec, except_bind_err] at h
              exact absurd h (by simp)
            | ok p =>
              rw [hrec, except_bind_ok, except_pure] at h
              simp only [Except.ok.injEq, Prod.mk.injEq] at h
              obtain ⟨h1, h2⟩ := h
              subst h1
              have hlen := ih (applyRound s r) minp p.1 p.2 (by rw [hrec])
              simp only [List.length_cons]
              omega

/-- C6: the multi-round simulation is bounded: with `max_rounds = 0` it
returns the empty round sequence with the snapshot unchanged; the
round sequence is never longer than `max_rounds`; and from any current
snapshot the loop stops without appending a round as soon as the
relative price difference is below `min_price_diff_pct`, or the
evaluated round's profit is not positive. -/
theorem c6_simulation_bounded (s : Snapshot) (n : ℕ) (minp : ℝ) :
    simulate_multi_round_arbitrage s 0 minp = Except.ok ([], s) ∧
    (∀ l f, simulate_multi_round_arbitrage s n minp = Except.ok (l, f) →
      l.length ≤ n) ∧
    (∀ pct, priceDiffPctE s = Except.ok pct → pct < minp →
      simulate_multi_round_arbitrage s (n + 1) minp = Except.ok ([], s)) ∧
    (∀ pct r, priceDiffPctE s = Except.ok pct → ¬ pct < minp →
      calculate_arbitrage s.eth_usdc s.eth_zerc s.pol_usdc s.pol_zerc =
        Except.ok r →
      r.profit ≤ 0 →
      simulate_multi_round_arbitrage s (n + 1) minp = Except.ok ([], s)) := by
  refine ⟨rfl, simulate_length_le n s minp, ?_, ?_⟩
  · intro pct hp hlt
    simp only [simulate_multi_round_arbitrage]
    rw [hp, except_bind_ok, if_pos hlt, except_pure]
  · intro pct r hp hnlt hr hprof
    simp only [simulate_multi_round_arbitrage]
    rw [hp, except_bind_ok, if_neg hnlt, hr, except_bind_ok, if_pos hprof,
        except_pure]

/- ### Concrete evaluation helpers -/

/-- Helper: the square root of 4. -/
theorem sqrt_four : Real.sqrt 4 = 2 := by
  rw [show (4 : ℝ) = 2 ^ 2 by norm_num, Real.sqrt_sq (by norm_num : (0:ℝ) ≤ 2)]

/-- Helper: the swap formula as a plain quotient. -/
theorem calculate_amount_out_val (a ri ro : ℝ) :
    calculate_amount_out a ri ro = a * ro / (ri + a) := rfl

/-- Helper: the optimal input at the zero-profit boundary pools
`(1600, 800)` and `(800, 100)` is `1600 / 3`. -/
theorem optimal_input_boundary :
    optimal_input_calc 1600 800 800 100 = Except.ok (1600 / 3) := by
  rw [optimal_input_calc_eval 1600 800 800 100
      (by norm_num) (by norm_num) (by norm_num) (by norm_num),
      show ((800:ℝ) / 100) / ((1600:ℝ) / 800) = 4 by norm_num, sqrt_four]
  norm_num

/-- Helper: at the boundary pools the round's profit is exactly zero,
so the guarded block returns the zero result. -/
theorem arbCore_boundary :
    arbCore "eth_to_pol" 1600 800 800 100 = Except.ok zeroResult := by
  rw [arbCore, optimal_input_boundary, except_bind_ok,
      pyCallAmountOut_ok _ _ (by norm_num : (1600:ℝ) + 1600 / 3 ≠ 0),
      except_bind_ok,
      show calculate_amount_out (1600 / 3) 1600 800 = 200 by
        rw [calculate_amount_out_val]; norm_num,
      pyCallAmountOut_ok _ _ (by norm_num : (100:ℝ) + 200 ≠ 0), except_bind_ok,
      show calculate_amount_out 200 100 800 = 1600 / 3 by
        rw [calculate_amount_out_val]; norm_num,
      if_pos (by norm_num : (1600:ℝ) / 3 - 1600 / 3 ≤ 0), except_pure]

/-- Helper: full evaluation at the boundary pools: prices 2 and 8,
price difference 300%, zero profit, zero result. -/
theorem calc_arb_boundary :
    calculate_arbitrage 1600 800 800 100 = Except.ok zeroResult := by
  rw [calculate_arbitrage, pyDiv_ok 1600 (by norm_num : (800:ℝ) ≠ 0),
      except_bind_ok, pyDiv_ok 800 (by norm_num : (100:ℝ) ≠ 0), except_bind_ok]
  norm_num
  rw [pyDiv_ok 6 (by norm_num : (2:ℝ) ≠ 0), except_bind_ok]
  norm_num
  rw [arbCore_boundary]
  rfl

/-- Helper: two pools with the same price 2 have price difference 0. -/
theorem priceDiff_eq_pools :
    priceDiffPctE ⟨100, 50, 100, 50⟩ = Except.ok 0 := by
  rw [priceDiffPctE]
  norm_num [pyDiv, except_bind_ok, except_pure]

/-- Helper: the boundary snapshot has price difference 300%. -/
theorem priceDiff_boundary :
    priceDiffPctE ⟨1600, 800, 800, 100⟩ = Except.ok 300 := by
  rw [priceDiffPctE]
  norm_num [pyDiv, except_bind_ok, except_pure]

/-- Witness for C6: a zero round cap returns immediately; two
equal-price pools stop on the threshold; the boundary pools stop on
the non-positive profit of their evaluated round. -/
theorem c6_witness :
    simulate_multi_round_arbitrage ⟨100, 50, 100, 50⟩ 0 1 =
      Except.ok ([], ⟨100, 50, 100, 50⟩) ∧
    simulate_multi_round_arbitrage ⟨100, 50, 100, 50⟩ 1 1 =
      Except.ok ([], ⟨100, 50, 100, 50⟩) ∧
    simulate_multi_round_arbitrage ⟨1600, 800, 800, 100⟩ 1 1 =
      Except.ok ([], ⟨1600, 800, 800, 100⟩) := by
  refine ⟨(c6_simulation_bounded ⟨100, 50, 100, 50⟩ 0 1).1, ?_, ?_⟩
  · exact (c6_simulation_bounded ⟨100, 50, 100, 50⟩ 0 1).2.2.1 0
      priceDiff_eq_pools (by norm_num)
  · exact (c6_simulation_bounded ⟨1600, 800, 800, 100⟩ 0 1).2.2.2 300 zeroResult
      priceDiff_boundary (by norm_num) calc_arb_boundary
      (by norm_num [zeroResult])

/- ### Algebra of one round -/

/-- Helper: constant-product conservation of a single swap: adding the
input to the in-reserve and removing the computed output from the
out-reserve leaves the reserve product unchanged. -/
theorem amount_out_prod (x ri ro : ℝ) (h : ri + x ≠ 0) :
    (ri + x) * (ro - calculate_amount_out x ri ro) = ri * ro := by
  show (ri + x) * (ro - x * ro / (ri + x)) = ri * ro
  field_simp
  ring

/-- Helper: a swap with a positive input against positive reserves has
an output strictly between 0 and the out-reserve. -/
theorem amount_out_pos {x ri ro : ℝ} (hx : 0 < x) (hri : 0 < ri) (hro : 0 < ro) :
    0 < calculate_amount_out x ri ro ∧ calculate_amount_out x ri ro < ro := by
  constructor
  · exact div_pos (mul_pos hx hro) (by linarith)
  · rw [calculate_amount_out_val, div_lt_iff₀ (by linarith : (0:ℝ) < ri + x)]
    nlinarith

/-- Helper: when the source pool has the strictly lower price, the
gamma coefficient exceeds 1. -/
theorem gamma_gt_one {su sz tu tz : ℝ} (hsu : 0 < su) (hsz : 0 < sz)
    (htu : 0 < tu) (htz : 0 < tz) (hlt : su / sz < tu / tz) :
    1 < gammaOf su sz tu tz := by
  have hq1 : 1 < (tu / tz) / (su / sz) :=
    (one_lt_div (div_pos hsu hsz)).mpr hlt
  have h := Real.sqrt_lt_sqrt (by norm_num : (0:ℝ) ≤ 1) hq1
  rwa [Real.sqrt_one] at h

/-- Helper: gamma squared recovers the price-ratio quotient. -/
theorem gamma_sq {su sz tu tz : ℝ} (hsu : 0 < su) (hsz : 0 < sz)
    (htu : 0 < tu) (htz : 0 < tz) :
    gammaOf su sz tu tz ^ 2 * (su * tz) = tu * sz := by
  have hq : 0 ≤ (tu / tz) / (su / sz) :=
    (div_pos (div_pos htu htz) (div_pos hsu hsz)).le
  rw [gammaOf, Real.sq_sqrt hq]
  field_simp
  ring

/-- Helper: the optimal input is positive when the source pool has the
strictly lower price. -/
theorem optimal_pos {su sz tu tz : ℝ} (hsu : 0 < su) (hsz : 0 < sz)
    (htu : 0 < tu) (htz : 0 < tz) (hlt : su / sz < tu / tz) :
    0 < optimalOf su sz tu tz := by
  have hg := gamma_gt_one hsu hsz htu htz hlt
  exact div_pos (mul_pos hsu (by linarith)) (by linarith)

/-- Helper: the optimal-input computation returns the value of
`optimalOf` for positive reserves. -/
theorem optimal_input_calc_ok {su sz tu tz : ℝ} (hsu : 0 < su) (hsz : 0 < sz)
    (htu : 0 < tu) (htz : 0 < tz) :
    optimal_input_calc su sz tu tz = Except.ok (optimalOf su sz tu tz) := by
  rw [optimal_input_calc_eval su sz tu tz hsu hsz htu htz]
  rfl

/-- Helper: folding the first swap leg into `zercOutOf`. -/
theorem zercOutOf_def (su sz tu tz : ℝ) :
    calculate_amount_out (optimalOf su sz tu tz) su sz = zercOutOf su sz tu tz :=
  rfl

/-- Helper: folding the second swap leg into `usdcOutOf`. -/
theorem usdcOutOf_def (su sz tu tz : ℝ) :
    calculate_amount_out (zercOutOf su sz tu tz) tz tu = usdcOutOf su sz tu tz :=
  rfl

/-- Helper: for positive reserves with the source pool strictly
cheaper, the guarded trade block reduces to the profit check between
`usdcOutOf` and `optimalOf`. -/
theorem arbCore_reduce (d : String) (su sz tu tz : ℝ)
    (hsu : 0 < su) (hsz : 0 < sz) (htu : 0 < tu) (htz : 0 < tz)
    (hlt : su / sz < tu / tz) :
    arbCore d su sz tu tz =
      if usdcOutOf su sz tu tz - optimalOf su sz tu tz ≤ 0 then
        Except.ok zeroResult
      else Except.ok (fullResult d su sz tu tz) := by
  have ha : 0 < optimalOf su sz tu tz := optimal_pos hsu hsz htu htz hlt
  have hz := amount_out_pos ha hsu hsz
  rw [zercOutOf_def] at hz
  have ho := amount_out_pos hz.1 htz htu
  rw [usdcOutOf_def] at ho
  rw [arbCore, optimal_input_calc_ok hsu hsz htu htz, except_bind_ok,
      pyCallAmountOut_ok _ sz
        (show (0:ℝ) < su + optimalOf su sz tu tz by linarith).ne',
      except_bind_ok, zercOutOf_def,
      pyCallAmountOut_ok _ tu
        (show (0:ℝ) < tz + zercOutOf su sz tu tz by linarith [hz.1]).ne',
      except_bind_ok, usdcOutOf_def]
  by_cases hpr : usdcOutOf su sz tu tz - optimalOf su sz tu tz ≤ 0
  · rw [if_pos hpr, if_pos hpr]
    rfl
  · rw [if_neg hpr, if_neg hpr]
    have hnsp : 0 < (su + optimalOf su sz tu tz) / (sz - zercOutOf su sz tu tz) :=
      div_pos (by linarith) (by linarith [hz.2])
    have hntp : 0 < (tu - usdcOutOf su sz tu tz) / (tz + zercOutOf su sz tu tz) :=
      div_pos (by linarith [ho.2]) (by linarith [hz.1])
    rw [pyDiv_ok _ (show (0:ℝ) < sz - zercOutOf su sz tu tz by
          linarith [hz.2]).ne', except_bind_ok,
        pyDiv_ok _ (show (0:ℝ) < tz + zercOutOf su sz tu tz by
          linarith [hz.1]).ne', except_bind_ok,
        pyDiv_ok _ (lt_min hnsp hntp).ne', except_bind_ok]
    rfl

/-- Helper: under the guard the two prices cannot be equal. -/
theorem threshold_prices_ne {eu ez pu pz : ℝ}
    (hth : ¬ |eu / ez - pu / pz| / min (eu / ez) (pu / pz) * 100 < 0.001) :
    eu / ez ≠ pu / pz := by
  intro he
  apply hth
  rw [he, sub_self, abs_zero, zero_div, zero_mul]
  norm_num

/-- Helper: full case analysis of `calculate_arbitrage` over positive
reserves: either the zero result (threshold hit, or non-positive
profit of the evaluated trade), or the full record for the direction
whose source pool is strictly cheaper, with strictly positive
profit. -/
theorem calc_arb_cases (eu ez pu pz : ℝ)
    (heu : 0 < eu) (hez : 0 < ez) (hpu : 0 < pu) (hpz : 0 < pz) :
    calculate_arbitrage eu ez pu pz = Except.ok zeroResult ∨
    (eu / ez < pu / pz ∧
      0 < usdcOutOf eu ez pu pz - optimalOf eu ez pu pz ∧
      calculate_arbitrage eu ez pu pz =
        Except.ok (fullResult "eth_to_pol" eu ez pu pz)) ∨
    (pu / pz < eu / ez ∧
      0 < usdcOutOf pu pz eu ez - optimalOf pu pz eu ez ∧
      calculate_arbitrage eu ez pu pz =
        Except.ok (fullResult "pol_to_eth" pu pz eu ez)) := by
  rw [calculate_arbitrage, pyDiv_ok eu hez.ne', except_bind_ok,
      pyDiv_ok pu hpz.ne', except_bind_ok,
      pyDiv_ok _ (lt_min (div_pos heu hez) (div_pos hpu hpz)).ne',
      except_bind_ok]
  by_cases hth : |eu / ez - pu / pz| / min (eu / ez) (pu / pz) * 100 < 0.001
  · left
    rw [if_pos hth]
    rfl
  · rw [if_neg hth]
    rcases (threshold_prices_ne hth).lt_or_lt with h | h
    · rw [if_pos h, arbCore_reduce "eth_to_pol" eu ez pu pz heu hez hpu hpz h]
      by_cases hpr : usdcOutOf eu ez pu pz - optimalOf eu ez pu pz ≤ 0
      · left
        rw [if_pos hpr]
        rfl
      · right; left
        rw [if_neg hpr]
        exact ⟨h, not_le.mp hpr, rfl⟩
    · rw [if_neg (not_lt.mpr h.le),
          arbCore_reduce "pol_to_eth" pu pz eu ez hpu hpz heu hez h]
      by_cases hpr : usdcOutOf pu pz eu ez - optimalOf pu pz eu ez ≤ 0
      · left
        rw [if_pos hpr]
        rfl
      · right; right
        rw [if_neg hpr]
        exact ⟨h, not_le.mp hpr, rfl⟩

/- ### C3: invariants of the single-round result -/

/-- C3: for positive reserves the single-round evaluation never fails;
whenever it returns a non-zero result, the result satisfies
`profit = usdc_out - usdc_in`, `usdc_out > usdc_in > 0` and
`zerc_bridged > 0`; and every non-profitable evaluation returns the
canonical zero result instead. -/
theorem c3_result_invariants (eu ez pu pz : ℝ)
    (heu : 0 < eu) (hez : 0 < ez) (hpu : 0 < pu) (hpz : 0 < pz) :
    ∃ r, calculate_arbitrage eu ez pu pz = Except.ok r ∧
      (r ≠ zeroResult →
        r.profit = r.usdc_out - r.usdc_in ∧
        r.usdc_in < r.usdc_out ∧ 0 < r.usdc_in ∧ 0 < r.zerc_bridged) ∧
      (r.profit ≤ 0 → r = zeroResult) := by
  rcases calc_arb_cases eu ez pu pz heu hez hpu hpz with
    h | ⟨hlt, hpr, h⟩ | ⟨hlt, hpr, h⟩
  · exact ⟨zeroResult, h, fun hne => absurd rfl hne, fun _ => rfl⟩
  · refine ⟨fullResult "eth_to_pol" eu ez pu pz, h, fun _ => ?_, fun hp => ?_⟩
    · have ha := optimal_pos heu hez hpu hpz hlt
      have hz := amount_out_pos ha heu hez
      rw [zercOutOf_def] at hz
      exact ⟨rfl, by simpa [fullResult] using hpr, ha, hz.1⟩
    · exact absurd hp (not_le.mpr hpr)
  · refine ⟨fullResult "pol_to_eth" pu pz eu ez, h, fun _ => ?_, fun hp => ?_⟩
    · have ha := optimal_pos hpu hpz heu hez hlt
      have hz := amount_out_pos ha hpu hpz
      rw [zercOutOf_def] at hz
      exact ⟨rfl, by simpa [fullResult] using hpr, ha, hz.1⟩
    · exact absurd hp (not_le.mpr hpr)

/-- Witness for C3 at the profitable pools `(100, 50)` / `(800, 100)`. -/
theorem c3_witness :
    ∃ r, calculate_arbitrage 100 50 800 100 = Except.ok r ∧
      (r ≠ zeroResult →
        r.profit = r.usdc_out - r.usdc_in ∧
        r.usdc_in < r.usdc_out ∧ 0 < r.usdc_in ∧ 0 < r.zerc_bridged) ∧
      (r.profit ≤ 0 → r = zeroResult) :=
  c3_result_invariants 100 50 800 100
    (by norm_num) (by norm_num) (by norm_num) (by norm_num)

/- ### C10: direction selection and positivity of the optimal input -/

/-- C10: above the threshold the prices differ strictly, the pool with
the strictly lower price is the source, and for that assignment the
gamma coefficient exceeds 1 and the computed optimal input is strictly
positive — so a guard `amount ≤ 0` could never fire there. -/
theorem c10_direction_optimal_positive (eu ez pu pz : ℝ)
    (heu : 0 < eu) (hez : 0 < ez) (hpu : 0 < pu) (hpz : 0 < pz)
    (hth : ¬ |eu / ez - pu / pz| / min (eu / ez) (pu / pz) * 100 < 0.001) :
    (eu / ez < pu / pz ∨ pu / pz < eu / ez) ∧
    (eu / ez < pu / pz →
      1 < gammaOf eu ez pu pz ∧
      optimal_input_calc eu ez pu pz = Except.ok (optimalOf eu ez pu pz) ∧
      0 < optimalOf eu ez pu pz) ∧
    (pu / pz < eu / ez →
      1 < gammaOf pu pz eu ez ∧
      optimal_input_calc pu pz eu ez = Except.ok (optimalOf pu pz eu ez) ∧
      0 < optimalOf pu pz eu ez) :=
  ⟨(threshold_prices_ne hth).lt_or_lt,
   fun h => ⟨gamma_gt_one heu hez hpu hpz h,
     optimal_input_calc_ok heu hez hpu hpz, optimal_pos heu hez hpu hpz h⟩,
   fun h => ⟨gamma_gt_one hpu hpz heu hez h,
     optimal_input_calc_ok hpu hpz heu hez, optimal_pos hpu hpz heu hez h⟩⟩

/-- Witness for C10 at the pools `(100, 50)` / `(800, 100)` with
prices 2 and 8. -/
theorem c10_witness :
    1 < gammaOf 100 50 800 100 ∧
    optimal_input_calc 100 50 800 100 = Except.ok (optimalOf 100 50 800 100) ∧
    0 < optimalOf 100 50 800 100 :=
  (c10_direction_optimal_positive 100 50 800 100
    (by norm_num) (by norm_num) (by norm_num) (by norm_num)
    (by norm_num)).2.1 (by norm_num)

/- ### Concrete evaluation of a profitable round -/

/-- Helper: gamma at the profitable pools is 2. -/
theorem gammaOf_eval : gammaOf 100 50 800 100 = 2 := by
  rw [gammaOf, show ((800:ℝ) / 100) / ((100:ℝ) / 50) = 4 by norm_num, sqrt_four]

/-- Helper: the optimal input at the profitable pools is `100 / 3`. -/
theorem optimalOf_eval : optimalOf 100 50 800 100 = 100 / 3 := by
  rw [optimalOf, gammaOf_eval]
  norm_num

/-- Helper: the bridged amount at the profitable pools is `25 / 2`. -/
theorem zercOutOf_eval : zercOutOf 100 50 800 100 = 25 / 2 := by
  rw [zercOutOf, calculate_amount_out_val, optimalOf_eval]
  norm_num

/-- Helper: the second-leg output at the profitable pools is `800 / 9`. -/
theorem usdcOutOf_eval : usdcOutOf 100 50 800 100 = 800 / 9 := by
  rw [usdcOutOf, calculate_amount_out_val, zercOutOf_eval]
  norm_num

/-- Helper: the profit at the profitable pools is positive. -/
theorem profit_eval_pos : 0 < usdcOutOf 100 50 800 100 - optimalOf 100 50 800 100 := by
  rw [usdcOutOf_eval, optimalOf_eval]
  norm_num

/-- Helper: full evaluation of the profitable round: direction
`eth_to_pol` and the full record. -/
theorem calc_arb_profitable_eval :
    calculate_arbitrage 100 50 800 100 =
      Except.ok (fullResult "eth_to_pol" 100 50 800 100) := by
  rw [calculate_arbitrage, pyDiv_ok 100 (by norm_num : (50:ℝ) ≠ 0),
      except_bind_ok, pyDiv_ok 800 (by norm_num : (100:ℝ) ≠ 0), except_bind_ok]
  norm_num
  rw [pyDiv_ok 6 (by norm_num : (2:ℝ) ≠ 0), except_bind_ok]
  norm_num
  rw [arbCore_reduce "eth_to_pol" 100 50 800 100
      (by norm_num) (by norm_num) (by norm_num) (by norm_num) (by norm_num),
      if_neg (not_le.mpr profit_eval_pos)]
  rfl

/- ### C5: snapshot update and pool products -/

/-- Helper: one profitable-direction round leaves both pools' reserve
products unchanged (the no-fee constant-product identity), stated as
the inequalities of the spec. -/
theorem round_products {su sz tu tz : ℝ} (hsu : 0 < su) (hsz : 0 < sz)
    (htu : 0 < tu) (htz : 0 < tz) (hlt : su / sz < tu / tz) :
    su * sz ≤ (su + optimalOf su sz tu tz) * (sz - zercOutOf su sz tu tz) ∧
    tu * tz ≤ (tu - usdcOutOf su sz tu tz) * (tz + zercOutOf su sz tu tz) := by
  have ha := optimal_pos hsu hsz htu htz hlt
  have hz := amount_out_pos ha hsu hsz
  rw [zercOutOf_def] at hz
  have h1 := amount_out_prod (optimalOf su sz tu tz) su sz
    (show (0:ℝ) < su + optimalOf su sz tu tz by linarith).ne'
  rw [zercOutOf_def] at h1
  have h2 := amount_out_prod (zercOutOf su sz tu tz) tz tu
    (show (0:ℝ) < tz + zercOutOf su sz tu tz by linarith [hz.1]).ne'
  rw [usdcOutOf_def] at h2
  constructor
  · exact le_of_eq (by linear_combination - h1)
  · exact le_of_eq (by linear_combination - h2)

/-- C5: for every profitable round returned by the evaluation on a
positive snapshot, the simulator's update adds the input to the source
pool's stable reserve, removes the bridged amount from its other
reserve, removes the output from the target pool's stable reserve and
adds the bridged amount to its other reserve; and each pool's reserve
product after the update is at least its product before. -/
theorem c5_round_update_products (s : Snapshot) (r : ArbitrageResult)
    (he1 : 0 < s.eth_usdc) (he2 : 0 < s.eth_zerc)
    (hp1 : 0 < s.pol_usdc) (hp2 : 0 < s.pol_zerc)
    (hcalc : calculate_arbitrage s.eth_usdc s.eth_zerc s.pol_usdc s.pol_zerc =
      Except.ok r)
    (hp : 0 < r.profit) :
    (r.direction = "eth_to_pol" ∨ r.direction = "pol_to_eth") ∧
    (r.direction = "eth_to_pol" →
      applyRound s r = ⟨s.eth_usdc + r.usdc_in, s.eth_zerc - r.zerc_bridged,
        s.pol_usdc - r.usdc_out, s.pol_zerc + r.zerc_bridged⟩) ∧
    (r.direction = "pol_to_eth" →
      applyRound s r = ⟨s.eth_usdc - r.usdc_out, s.eth_zerc + r.zerc_bridged,
        s.pol_usdc + r.usdc_in, s.pol_zerc - r.zerc_bridged⟩) ∧
    s.eth_usdc * s.eth_zerc ≤
      (applyRound s r).eth_usdc * (applyRound s r).eth_zerc ∧
    s.pol_usdc * s.pol_zerc ≤
      (applyRound s r).pol_usdc * (applyRound s r).pol_zerc := by
  rcases calc_arb_cases s.eth_usdc s.eth_zerc s.pol_usdc s.pol_zerc
      he1 he2 hp1 hp2 with h | ⟨hlt, hpr, h⟩ | ⟨hlt, hpr, h⟩
  · have hr : r = zeroResult := (Except.ok.inj (h.symm.trans hcalc)).symm
    subst hr
    simp [zeroResult] at hp
  · have hr : r = fullResult "eth_to_pol" s.eth_usdc s.eth_zerc
        s.pol_usdc s.pol_zerc := (Except.ok.inj (h.symm.trans hcalc)).symm
    subst hr
    have happ : applyRound s (fullResult "eth_to_pol" s.eth_usdc s.eth_zerc
        s.pol_usdc s.pol_zerc) =
        ⟨s.eth_usdc + optimalOf s.eth_usdc s.eth_zerc s.pol_usdc s.pol_zerc,
         s.eth_zerc - zercOutOf s.eth_usdc s.eth_zerc s.pol_usdc s.pol_zerc,
         s.pol_usdc - usdcOutOf s.eth_usdc s.eth_zerc s.pol_usdc s.pol_zerc,
         s.pol_zerc + zercOutOf s.eth_usdc s.eth_zerc s.pol_usdc s.pol_zerc⟩ := by
      rw [applyRound, if_pos (show (fullResult "eth_to_pol" s.eth_usdc
        s.eth_zerc s.pol_usdc s.pol_zerc).direction = "eth_to_pol" from rfl)]
      rfl
    have hprods := round_products he1 he2 hp1 hp2 hlt
    exact ⟨Or.inl rfl, fun _ => happ, fun hd => by simp [fullResult] at hd,
      happ ▸ hprods.1, happ ▸ hprods.2⟩
  · have hr : r = fullResult "pol_to_eth" s.pol_usdc s.pol_zerc
        s.eth_usdc s.eth_zerc := (Except.ok.inj (h.symm.trans hcalc)).symm
    subst hr
    have happ : applyRound s (fullResult "pol_to_eth" s.pol_usdc s.pol_zerc
        s.eth_usdc s.eth_zerc) =
        ⟨s.eth_usdc - usdcOutOf s.pol_usdc s.pol_zerc s.eth_usdc s.eth_zerc,
         s.eth_zerc + zercOutOf s.pol_usdc s.pol_zerc s.eth_usdc s.eth_zerc,
         s.pol_usdc + optimalOf s.pol_usdc s.pol_zerc s.eth_usdc s.eth_zerc,
         s.pol_zerc - zercOutOf s.pol_usdc s.pol_zerc s.eth_usdc s.eth_zerc⟩ := by
      rw [applyRound, if_neg (show ¬ (fullResult "pol_to_eth" s.pol_usdc
        s.pol_zerc s.eth_usdc s.eth_zerc).direction = "eth_to_pol" by
          simp [fullResult])]
      rfl
    have hprods := round_products hp1 hp2 he1 he2 hlt
    exact ⟨Or.inr rfl, fun hd => by simp [fullResult] at hd, fun _ => happ,
      happ ▸ hprods.2, happ ▸ hprods.1⟩

/-- Witness for C5 at the profitable pools, snapshot
`(100, 50, 800, 100)`. -/
theorem c5_witness :
    (100:ℝ) * 50 ≤
      (applyRound ⟨100, 50, 800, 100⟩
        (fullResult "eth_to_pol" 100 50 800 100)).eth_usdc *
      (applyRound ⟨100, 50, 800, 100⟩
        (fullResult "eth_to_pol" 100 50 800 100)).eth_zerc ∧
    (800:ℝ) * 100 ≤
      (applyRound ⟨100, 50, 800, 100⟩
        (fullResult "eth_to_pol" 100 50 800 100)).pol_usdc *
      (applyRound ⟨100, 50, 800, 100⟩
        (fullResult "eth_to_pol" 100 50 800 100)).pol_zerc := by
  have h := c5_round_update_products ⟨100, 50, 800, 100⟩
    (fullResult "eth_to_pol" 100 50 800 100)
    (by norm_num) (by norm_num) (by norm_num) (by norm_num)
    calc_arb_profitable_eval
    (by show 0 < usdcOutOf 100 50 800 100 - optimalOf 100 50 800 100
        exact profit_eval_pos)
  exact ⟨h.2.2.2.1, h.2.2.2.2⟩

/- ### C8: each profitable round narrows the price gap -/

/-- Helper: the relative price-difference expression is symmetric. -/
theorem relDiffPct_comm (p1 p2 : ℝ) : relDiffPct p1 p2 = relDiffPct p2 p1 := by
  rw [relDiffPct, relDiffPct, abs_sub_comm, min_comm]

/-- Helper: for a positive snapshot the loop-head price-difference
computation succeeds with the value of `relDiffPct` on the two pool
prices. -/
theorem priceDiffPctE_ok (s : Snapshot)
    (he1 : 0 < s.eth_usdc) (he2 : 0 < s.eth_zerc)
    (hp1 : 0 < s.pol_usdc) (hp2 : 0 < s.pol_zerc) :
    priceDiffPctE s = Except.ok
      (relDiffPct (s.eth_usdc / s.eth_zerc) (s.pol_usdc / s.pol_zerc)) := by
  rw [priceDiffPctE, pyDiv_ok _ he2.ne', except_bind_ok, pyDiv_ok _ hp2.ne',
      except_bind_ok,
      pyDiv_ok _ (lt_min (div_pos he1 he2) (div_pos hp1 hp2)).ne',
      except_bind_ok, except_pure, relDiffPct]

set_option maxHeartbeats 1600000 in
/-- Helper: the core inequality behind the narrowing property, stated
on the closed forms of the post-round prices.  The hypothesis `hkeyT`
is the positive-profit condition. -/
theorem narrow_core (g su sz tu tz : ℝ) (hsu : 0 < su) (hsz : 0 < sz)
    (htu : 0 < tu) (htz : 0 < tz) (hg1 : 1 < g)
    (hgsq : g ^ 2 * (su * tz) = tu * sz)
    (hkeyT : 2 * g * tz + sz * (g - 1) < g ^ 2 * tz * (1 + g)) :
    relDiffPct (4 * g ^ 2 * su / (sz * (1 + g) ^ 2))
      (4 * g ^ 2 * tu * tz / (2 * g * tz + sz * (g - 1)) ^ 2) ≤
      (g ^ 2 - 1) * 100 := by
  have hg0 : 0 < g := by linarith
  have h1g : 0 < 1 + g := by linarith
  have hT : 0 < 2 * g * tz + sz * (g - 1) := by nlinarith
  have hd1 : 0 < sz * (1 + g) ^ 2 := by nlinarith
  have hd2 : 0 < (2 * g * tz + sz * (g - 1)) ^ 2 := by nlinarith
  have hE1 : 0 < 4 * g ^ 2 * su / (sz * (1 + g) ^ 2) :=
    div_pos (by nlinarith) hd1
  have hE2 : 0 < 4 * g ^ 2 * tu * tz / (2 * g * tz + sz * (g - 1)) ^ 2 :=
    div_pos (by nlinarith) hd2
  have hTge : tz * (1 + g) ≤ 2 * g * tz + sz * (g - 1) := by nlinarith
  have hgsq4 : 4 * g ^ 2 * tz * (1 + g) ^ 2 * (g ^ 2 * (su * tz)) =
      4 * g ^ 2 * tz * (1 + g) ^ 2 * (tu * sz) := by rw [hgsq]
  have hgsq5 : 4 * g ^ 4 * tz * (1 + g) ^ 2 * (g ^ 2 * (su * tz)) =
      4 * g ^ 4 * tz * (1 + g) ^ 2 * (tu * sz) := by rw [hgsq]
  rw [relDiffPct]
  rcases le_total (4 * g ^ 2 * su / (sz * (1 + g) ^ 2))
      (4 * g ^ 2 * tu * tz / (2 * g * tz + sz * (g - 1)) ^ 2) with hcmp | hcmp
  · rw [abs_sub_comm, abs_of_nonneg (sub_nonneg.mpr hcmp), min_eq_left hcmp]
    have hP : 0 < 4 * g ^ 4 * su := by nlinarith [pow_pos hg0 4]
    have hmain : 4 * g ^ 2 * tu * tz / (2 * g * tz + sz * (g - 1)) ^ 2 ≤
        g ^ 2 * (4 * g ^ 2 * su / (sz * (1 + g) ^ 2)) := by
      rw [show g ^ 2 * (4 * g ^ 2 * su / (sz * (1 + g) ^ 2)) =
          4 * g ^ 4 * su / (sz * (1 + g) ^ 2) by ring,
          div_le_div_iff₀ hd2 hd1]
      have hsq : (tz * (1 + g)) ^ 2 ≤ (2 * g * tz + sz * (g - 1)) ^ 2 :=
        pow_le_pow_left₀ (by nlinarith) hTge 2
      have hstep := mul_le_mul_of_nonneg_left hsq hP.le
      have heqA : 4 * g ^ 2 * tu * tz * (sz * (1 + g) ^ 2) =
          4 * g ^ 4 * su * (tz * (1 + g)) ^ 2 := by
        linear_combination (-(4 * g ^ 2 * tz * (1 + g) ^ 2) : ℝ) * hgsq
      linarith [hstep, heqA]
    have h1 : 4 * g ^ 2 * tu * tz / (2 * g * tz + sz * (g - 1)) ^ 2 -
        4 * g ^ 2 * su / (sz * (1 + g) ^ 2) ≤
        (g ^ 2 - 1) * (4 * g ^ 2 * su / (sz * (1 + g) ^ 2)) := by
      nlinarith [hmain]
    have hq := (div_le_iff₀ hE1).mpr h1
    linarith [hq]
  · rw [abs_of_nonneg (sub_nonneg.mpr hcmp), min_eq_right hcmp]
    have hP : 0 < 4 * g ^ 2 * su := by nlinarith
    have hmain : 4 * g ^ 2 * su / (sz * (1 + g) ^ 2) ≤
        g ^ 2 * (4 * g ^ 2 * tu * tz / (2 * g * tz + sz * (g - 1)) ^ 2) := by
      rw [show g ^ 2 * (4 * g ^ 2 * tu * tz / (2 * g * tz + sz * (g - 1)) ^ 2) =
          4 * g ^ 4 * tu * tz / (2 * g * tz + sz * (g - 1)) ^ 2 by ring,
          div_le_div_iff₀ hd1 hd2]
      have hsq : (2 * g * tz + sz * (g - 1)) ^ 2 ≤ (g ^ 2 * tz * (1 + g)) ^ 2 :=
        pow_le_pow_left₀ hT.le hkeyT.le 2
      have hstep := mul_le_mul_of_nonneg_left hsq hP.le
      have heqB : 4 * g ^ 2 * su * (g ^ 2 * tz * (1 + g)) ^ 2 =
          4 * g ^ 4 * tu * tz * (sz * (1 + g) ^ 2) := by
        linear_combination (4 * g ^ 4 * tz * (1 + g) ^ 2 : ℝ) * hgsq
      linarith [hstep, heqB]
    have h1 : 4 * g ^ 2 * su / (sz * (1 + g) ^ 2) -
        4 * g ^ 2 * tu * tz / (2 * g * tz + sz * (g - 1)) ^ 2 ≤
        (g ^ 2 - 1) * (4 * g ^ 2 * tu * tz / (2 * g * tz + sz * (g - 1)) ^ 2) := by
      nlinarith [hmain]
    have hq := (div_le_iff₀ hE2).mpr h1
    linarith [hq]

set_option maxHeartbeats 1600000 in
/-- Helper: one profitable round on a source pool that is strictly
cheaper does not increase the relative price difference of the two
pools. -/
theorem round_narrows {su sz tu tz : ℝ} (hsu : 0 < su) (hsz : 0 < sz)
    (htu : 0 < tu) (htz : 0 < tz) (hlt : su / sz < tu / tz)
    (hprofit : 0 < usdcOutOf su sz tu tz - optimalOf su sz tu tz) :
    relDiffPct ((su + optimalOf su sz tu tz) / (sz - zercOutOf su sz tu tz))
        ((tu - usdcOutOf su sz tu tz) / (tz + zercOutOf su sz tu tz)) ≤
      relDiffPct (su / sz) (tu / tz) := by
  have hg1 : 1 < gammaOf su sz tu tz := gamma_gt_one hsu hsz htu htz hlt
  have hgsq : gammaOf su sz tu tz ^ 2 * (su * tz) = tu * sz :=
    gamma_sq hsu hsz htu htz
  have hg0 : 0 < gammaOf su sz tu tz := by linarith
  have h1g : 0 < 1 + gammaOf su sz tu tz := by linarith
  have hT : 0 < 2 * gammaOf su sz tu tz * tz + sz * (gammaOf su sz tu tz - 1) := by
    nlinarith
  have ha2 : optimalOf su sz tu tz =
      su * (gammaOf su sz tu tz - 1) / (1 + gammaOf su sz tu tz) := rfl
  have hsua : su + optimalOf su sz tu tz =
      2 * gammaOf su sz tu tz * su / (1 + gammaOf su sz tu tz) := by
    rw [ha2]
    field_simp
    ring
  have hz2 : zercOutOf su sz tu tz =
      sz * (gammaOf su sz tu tz - 1) / (2 * gammaOf su sz tu tz) := by
    rw [← zercOutOf_def, calculate_amount_out_val, hsua, ha2]
    rw [div_eq_div_iff (by positivity) (by positivity)]
    ring
  have hszz : sz - zercOutOf su sz tu tz =
      sz * (1 + gammaOf su sz tu tz) / (2 * gammaOf su sz tu tz) := by
    rw [hz2]
    field_simp
    ring
  have htzz : tz + zercOutOf su sz tu tz =
      (2 * gammaOf su sz tu tz * tz + sz * (gammaOf su sz tu tz - 1)) /
        (2 * gammaOf su sz tu tz) := by
    rw [hz2]
    field_simp
    ring
  have ho2 : usdcOutOf su sz tu tz =
      sz * (gammaOf su sz tu tz - 1) * tu /
        (2 * gammaOf su sz tu tz * tz + sz * (gammaOf su sz tu tz - 1)) := by
    rw [← usdcOutOf_def, calculate_amount_out_val, htzz, hz2]
    rw [div_eq_div_iff (by positivity) (by positivity)]
    ring
  have htuo : tu - usdcOutOf su sz tu tz =
      2 * gammaOf su sz tu tz * tz * tu /
        (2 * gammaOf su sz tu tz * tz + sz * (gammaOf su sz tu tz - 1)) := by
    rw [ho2]
    field_simp
    ring
  have hP1 : (su + optimalOf su sz tu tz) / (sz - zercOutOf su sz tu tz) =
      4 * gammaOf su sz tu tz ^ 2 * su /
        (sz * (1 + gammaOf su sz tu tz) ^ 2) := by
    rw [hsua, hszz, div_eq_div_iff (by positivity) (by positivity)]
    field_simp
    ring
  have hP2 : (tu - usdcOutOf su sz tu tz) / (tz + zercOutOf su sz tu tz) =
      4 * gammaOf su sz tu tz ^ 2 * tu * tz /
        (2 * gammaOf su sz tu tz * tz + sz * (gammaOf su sz tu tz - 1)) ^ 2 := by
    rw [htuo, htzz, div_eq_div_iff (by positivity) (by positivity)]
    field_simp
    ring
  have hoa : optimalOf su sz tu tz < usdcOutOf su sz tu tz := by linarith
  have hcross : su * (gammaOf su sz tu tz - 1) *
      (2 * gammaOf su sz tu tz * tz + sz * (gammaOf su sz tu tz - 1)) <
      sz * (gammaOf su sz tu tz - 1) * tu * (1 + gammaOf su sz tu tz) := by
    have h := hoa
    rw [ha2, ho2, div_lt_div_iff₀ h1g hT] at h
    linarith [h]
  have hkey : 2 * gammaOf su sz tu tz * tz + sz * (gammaOf su sz tu tz - 1) <
      gammaOf su sz tu tz ^ 2 * tz * (1 + gammaOf su sz tu tz) := by
    have hgsq2 : (gammaOf su sz tu tz - 1) * (1 + gammaOf su sz tu tz) *
        (gammaOf su sz tu tz ^ 2 * (su * tz)) =
        (gammaOf su sz tu tz - 1) * (1 + gammaOf su sz tu tz) * (tu * sz) := by
      rw [hgsq]
    nlinarith [hcross, hgsq2, mul_pos hsu (sub_pos.mpr hg1)]
  have htu_div : tu / tz = gammaOf su sz tu tz ^ 2 * (su / sz) := by
    rw [div_eq_iff htz.ne']
    field_simp
    linarith [hgsq]
  have hRHS : relDiffPct (su / sz) (tu / tz) =
      (gammaOf su sz tu tz ^ 2 - 1) * 100 := by
    rw [relDiffPct, abs_sub_comm, abs_of_pos (sub_pos.mpr hlt),
        min_eq_left hlt.le, htu_div]
    field_simp
    ring
  rw [hP1, hP2, hRHS]
  exact narrow_core (gammaOf su sz tu tz) su sz tu tz hsu hsz htu htz hg1
    hgsq hkey

/-- C8: applying a profitable round returned by the evaluation on a
positive snapshot never increases the relative price difference
computed by the simulator's loop head. -/
theorem c8_gap_narrows (s : Snapshot) (r : ArbitrageResult)
    (he1 : 0 < s.eth_usdc) (he2 : 0 < s.eth_zerc)
    (hp1 : 0 < s.pol_usdc) (hp2 : 0 < s.pol_zerc)
    (hcalc : calculate_arbitrage s.eth_usdc s.eth_zerc s.pol_usdc s.pol_zerc =
      Except.ok r)
    (hp : 0 < r.profit) :
    ∃ pct1 pct2, priceDiffPctE s = Except.ok pct1 ∧
      priceDiffPctE (applyRound s r) = Except.ok pct2 ∧ pct2 ≤ pct1 := by
  rcases calc_arb_cases s.eth_usdc s.eth_zerc s.pol_usdc s.pol_zerc
      he1 he2 hp1 hp2 with h | ⟨hlt, hpr, h⟩ | ⟨hlt, hpr, h⟩
  · have hr : r = zeroResult := (Except.ok.inj (h.symm.trans hcalc)).symm
    subst hr
    simp [zeroResult] at hp
  · have hr : r = fullResult "eth_to_pol" s.eth_usdc s.eth_zerc
        s.pol_usdc s.pol_zerc := (Except.ok.inj (h.symm.trans hcalc)).symm
    subst hr
    have ha := optimal_pos he1 he2 hp1 hp2 hlt
    have hz := amount_out_pos ha he1 he2
    rw [zercOutOf_def] at hz
    have ho := amount_out_pos hz.1 hp2 hp1
    rw [usdcOutOf_def] at ho
    have happ : applyRound s (fullResult "eth_to_pol" s.eth_usdc s.eth_zerc
        s.pol_usdc s.pol_zerc) =
        ⟨s.eth_usdc + optimalOf s.eth_usdc s.eth_zerc s.pol_usdc s.pol_zerc,
         s.eth_zerc - zercOutOf s.eth_usdc s.eth_zerc s.pol_usdc s.pol_zerc,
         s.pol_usdc - usdcOutOf s.eth_usdc s.eth_zerc s.pol_usdc s.pol_zerc,
         s.pol_zerc + zercOutOf s.eth_usdc s.eth_zerc s.pol_usdc s.pol_zerc⟩ := by
      rw [applyRound, if_pos (show (fullResult "eth_to_pol" s.eth_usdc
        s.eth_zerc s.pol_usdc s.pol_zerc).direction = "eth_to_pol" from rfl)]
      rfl
    have hnew : priceDiffPctE (applyRound s (fullResult "eth_to_pol"
        s.eth_usdc s.eth_zerc s.pol_usdc s.pol_zerc)) =
        Except.ok (relDiffPct
          ((s.eth_usdc + optimalOf s.eth_usdc s.eth_zerc s.pol_usdc s.pol_zerc) /
            (s.eth_zerc - zercOutOf s.eth_usdc s.eth_zerc s.pol_usdc s.pol_zerc))
          ((s.pol_usdc - usdcOutOf s.eth_usdc s.eth_zerc s.pol_usdc s.pol_zerc) /
            (s.pol_zerc + zercOutOf s.eth_usdc s.eth_zerc s.pol_usdc s.pol_zerc))) := by
      rw [happ]
      exact priceDiffPctE_ok _
        (show (0:ℝ) < s.eth_usdc + optimalOf s.eth_usdc s.eth_zerc s.pol_usdc
          s.pol_zerc by linarith)
        (show (0:ℝ) < s.eth_zerc - zercOutOf s.eth_usdc s.eth_zerc s.pol_usdc
          s.pol_zerc by linarith [hz.2])
        (show (0:ℝ) < s.pol_usdc - usdcOutOf s.eth_usdc s.eth_zerc s.pol_usdc
          s.pol_zerc by linarith [ho.2])
        (show (0:ℝ) < s.pol_zerc + zercOutOf s.eth_usdc s.eth_zerc s.pol_usdc
          s.pol_zerc by linarith [hz.1])
    exact ⟨_, _, priceDiffPctE_ok s he1 he2 hp1 hp2, hnew,
      round_narrows he1 he2 hp1 hp2 hlt hpr⟩
  · have hr : r = fullResult "pol_to_eth" s.pol_usdc s.pol_zerc
        s.eth_usdc s.eth_zerc := (Except.ok.inj (h.symm.trans hcalc)).symm
    subst hr
    have ha := optimal_pos hp1 hp2 he1 he2 hlt
    have hz := amount_out_pos ha hp1 hp2
    rw [zercOutOf_def] at hz
    have ho := amount_out_pos hz.1 he2 he1
    rw [usdcOutOf_def] at ho
    have happ : applyRound s (fullResult "pol_to_eth" s.pol_usdc s.pol_zerc
        s.eth_usdc s.eth_zerc) =
        ⟨s.eth_usdc - usdcOutOf s.pol_usdc s.pol_zerc s.eth_usdc s.eth_zerc,
         s.eth_zerc + zercOutOf s.pol_usdc s.pol_zerc s.eth_usdc s.eth_zerc,
         s.pol_usdc + optimalOf s.pol_usdc s.pol_zerc s.eth_usdc s.eth_zerc,
         s.pol_zerc - zercOutOf s.pol_usdc s.pol_zerc s.eth_usdc s.eth_zerc⟩ := by
      rw [applyRound, if_neg (show ¬ (fullResult "pol_to_eth" s.pol_usdc
        s.pol_zerc s.eth_usdc s.eth_zerc).direction = "eth_to_pol" by
          simp [fullResult])]
      rfl
    have hnew : priceDiffPctE (applyRound s (fullResult "pol_to_eth"
        s.pol_usdc s.pol_zerc s.eth_usdc s.eth_zerc)) =
        Except.ok (relDiffPct
          ((s.eth_usdc - usdcOutOf s.pol_usdc s.pol_zerc s.eth_usdc s.eth_zerc) /
            (s.eth_zerc + zercOutOf s.pol_usdc s.pol_zerc s.eth_usdc s.eth_zerc))
          ((s.pol_usdc + optimalOf s.pol_usdc s.pol_zerc s.eth_usdc s.eth_zerc) /
            (s.pol_zerc - zercOutOf s.pol_usdc s.pol_zerc s.eth_usdc s.eth_zerc))) := by
      rw [happ]
      exact priceDiffPctE_ok _
        (show (0:ℝ) < s.eth_usdc - usdcOutOf s.pol_usdc s.pol_zerc s.eth_usdc
          s.eth_zerc by linarith [ho.2])
        (show (0:ℝ) < s.eth_zerc + zercOutOf s.pol_usdc s.pol_zerc s.eth_usdc
          s.eth_zerc by linarith [hz.1])
        (show (0:ℝ) < s.pol_usdc + optimalOf s.pol_usdc s.pol_zerc s.eth_usdc
          s.eth_zerc by linarith)
        (show (0:ℝ) < s.pol_zerc - zercOutOf s.pol_usdc s.pol_zerc s.eth_usdc
          s.eth_zerc by linarith [hz.2])
    have hnar : relDiffPct
        ((s.eth_usdc - usdcOutOf s.pol_usdc s.pol_zerc s.eth_usdc s.eth_zerc) /
          (s.eth_zerc + zercOutOf s.pol_usdc s.pol_zerc s.eth_usdc s.eth_zerc))
        ((s.pol_usdc + optimalOf s.pol_usdc s.pol_zerc s.eth_usdc s.eth_zerc) /
          (s.pol_zerc - zercOutOf s.pol_usdc s.pol_zerc s.eth_usdc s.eth_zerc)) ≤
        relDiffPct (s.eth_usdc / s.eth_zerc) (s.pol_usdc / s.pol_zerc) := by
      have h0 := round_narrows hp1 hp2 he1 he2 hlt hpr
      rw [relDiffPct_comm] at h0
      rw [relDiffPct_comm (s.eth_usdc / s.eth_zerc) (s.pol_usdc / s.pol_zerc)]
      exact h0
    exact ⟨_, _, priceDiffPctE_ok s he1 he2 hp1 hp2, hnew, hnar⟩

/-- Witness for C8 at the profitable pools `(100, 50)` / `(800, 100)`. -/
theorem c8_witness :
    ∃ pct1 pct2, priceDiffPctE ⟨100, 50, 800, 100⟩ = Except.ok pct1 ∧
      priceDiffPctE (applyRound ⟨100, 50, 800, 100⟩
        (fullResult "eth_to_pol" 100 50 800 100)) = Except.ok pct2 ∧
      pct2 ≤ pct1 :=
  c8_gap_narrows ⟨100, 50, 800, 100⟩ (fullResult "eth_to_pol" 100 50 800 100)
    (by norm_num) (by norm_num) (by norm_num) (by norm_num)
    calc_arb_profitable_eval
    (by show 0 < usdcOutOf 100 50 800 100 - optimalOf 100 50 800 100
        exact profit_eval_pos)
